import Mathlib

/-!
Shallow embedding of the redpwnpow proof-of-work core (`pow.go`, package
`pow`), together with the reference solver `solveOriginal` from
`optimizations_test.go`.

Modelling conventions:
* Go strings are byte strings; they are modelled as `List Nat` of byte
  values (each `< 256` where it matters).
* `gmp.Int` values are arbitrary-precision integers.  Every value the code
  constructs is non-negative (`SetBytes`, `NewInt 0/1`, modular results),
  so they are modelled as `Nat`; the single place where a negative value
  can arise — `x.Sub(mod, c.x)` in `Check` when `c.x > mod` — is carried
  out in `Int`, exactly as gmp would.
* `gmp.Int.Exp x e m` is `x ^ e % m` (for `e, m ≥ 0`), `Xor` is bitwise
  xor on naturals, `Bytes`/`SetBytes` are minimal big-endian byte
  marshalling.
* `base64.StdEncoding` follows Go's semantics: CR and LF bytes are
  skipped, input length must be a multiple of four, `=` padding only at
  the end, and — decisively — the unused trailing bits of the final
  quantum are *not* required to be zero (Go only checks them in `Strict`
  mode, which this code does not use).
-/

set_option exponentiation.threshold 4000

namespace Pow

/-- the modulus `mod = 2^1279 - 1` computed in `init()` -/
def M : Nat := 2 ^ 1279 - 1

/-- the exponent `exp = 2^1277` computed in `init()` -/
def E : Nat := 2 ^ 1277

/-- helper for `powMod`: binary modular exponentiation with explicit fuel
    (the exponent itself is enough fuel, since it halves every step) -/
def powModAux : Nat → Nat → Nat → Nat → Nat → Nat
  | 0, _, _, m, acc => acc % m
  | fuel + 1, b, e, m, acc =>
      if e = 0 then acc % m
      else powModAux fuel (b * b % m) (e / 2) m (if e % 2 = 1 then acc * b % m else acc)

/-- modular exponentiation `b^e mod m`, the semantics of `gmp.Int.Exp`
    (gmp computes it by binary exponentiation; `powMod_eq` below proves it
    equal to `b ^ e % m`) -/
def powMod (b e m : Nat) : Nat := powModAux e b e m 1

/-- one iteration of the Solve loop: `x.Exp(x, exp, mod); x.Xor(x, one)` -/
def slowStep (v : Nat) : Nat := powMod v E M ^^^ 1

/-- the Solve loop body applied `d` times (`for i := 0; i < d; i++`) -/
def slowIter : Nat → Nat → Nat
  | 0, v => v
  | d + 1, v => slowIter d (slowStep v)

/-- one iteration of the Check loop: `y.Xor(y, one); y.Exp(y, two, mod)` -/
def fastStep (y : Nat) : Nat := powMod (y ^^^ 1) 2 M

/-- the Check loop body applied `d` times -/
def fastIter : Nat → Nat → Nat
  | 0, y => y
  | d + 1, y => fastIter d (fastStep y)

/-- helper for `natToBytes` with explicit fuel (`n / 256 < n` justifies
    `n` itself as fuel) -/
def natToBytesAux : Nat → Nat → List Nat
  | 0, _ => []
  | fuel + 1, n => if n = 0 then [] else natToBytesAux fuel (n / 256) ++ [n % 256]

/-- minimal big-endian bytes of a natural number: `gmp.Int.Bytes`
    (the number `0` marshals to the empty byte string) -/
def natToBytes (n : Nat) : List Nat := natToBytesAux n n

/-- big-endian bytes to natural number: `gmp.Int.SetBytes` -/
def bytesToNat (l : List Nat) : Nat := l.foldl (fun acc b => acc * 256 + b) 0

/-- the standard base64 alphabet, as a map from 6-bit index to ASCII byte -/
def b64Char (i : Nat) : Nat :=
  if i < 26 then 65 + i
  else if i < 52 then 97 + (i - 26)
  else if i < 62 then 48 + (i - 52)
  else if i = 62 then 43
  else 47

/-- inverse of the base64 alphabet: ASCII byte to 6-bit value, `none` for
    bytes outside the alphabet (including the padding byte `=` = 61) -/
def b64Val (c : Nat) : Option Nat :=
  if 65 ≤ c ∧ c ≤ 90 then some (c - 65)
  else if 97 ≤ c ∧ c ≤ 122 then some (26 + (c - 97))
  else if 48 ≤ c ∧ c ≤ 57 then some (52 + (c - 48))
  else if c = 43 then some 62
  else if c = 47 then some 63
  else none

/-- base64.StdEncoding.EncodeToString on a byte string -/
def b64encode : List Nat → List Nat
  | [] => []
  | [a] => [b64Char (a / 4), b64Char (a % 4 * 16), 61, 61]
  | [a, b] => [b64Char (a / 4), b64Char (a % 4 * 16 + b / 16), b64Char (b % 16 * 4), 61]
  | a :: b :: c :: rest =>
      b64Char (a / 4) :: b64Char (a % 4 * 16 + b / 16) ::
        b64Char (b % 16 * 4 + c / 64) :: b64Char (c % 64) :: b64encode rest

/-- the quantum-by-quantum part of Go's base64 decoder (after newline
    stripping): four input bytes per three output bytes, `=` padding only
    in the final quantum, unused trailing bits of a padded final quantum
    ignored (non-strict mode) -/
def b64decodeQuanta : List Nat → Option (List Nat)
  | [] => some []
  | a :: b :: c :: d :: rest =>
      match b64Val a, b64Val b with
      | some va, some vb =>
        if c = 61 then
          if d = 61 ∧ rest = [] then some [va * 4 + vb / 16] else none
        else
          match b64Val c with
          | some vc =>
            if d = 61 then
              if rest = [] then some [va * 4 + vb / 16, vb % 16 * 16 + vc / 4] else none
            else
              match b64Val d with
              | some vd =>
                match b64decodeQuanta rest with
                | some bs =>
                    some ((va * 4 + vb / 16) :: (vb % 16 * 16 + vc / 4) :: (vc % 4 * 64 + vd) :: bs)
                | none => none
              | none => none
          | none => none
      | _, _ => none
  | _ => none

/-- base64.StdEncoding.DecodeString: Go skips CR (13) and LF (10) bytes,
    then decodes whole quanta -/
def goBase64Decode (s : List Nat) : Option (List Nat) :=
  b64decodeQuanta (s.filter (fun c => !(c == 13) && !(c == 10)))

/-- splits a byte string at its first dot (byte 46), if any -/
def splitFirst : List Nat → Option (List Nat × List Nat)
  | [] => none
  | c :: rest =>
      if c = 46 then some ([], rest)
      else
        match splitFirst rest with
        | none => none
        | some (p, r) => some (c :: p, r)

/-- strings.SplitN(s, ".", 2) -/
def goSplitN2 (s : List Nat) : List (List Nat) :=
  match splitFirst s with
  | none => [s]
  | some (p, r) => [p, r]

/-- strings.SplitN(s, ".", 3) -/
def goSplitN3 (s : List Nat) : List (List Nat) :=
  match splitFirst s with
  | none => [s]
  | some (p, r) =>
      match splitFirst r with
      | none => [p, r]
      | some (q, r2) => [p, q, r2]

/-- the version tag, the one-byte string "s" -/
def verB : List Nat := [115]

/-- a Challenge: difficulty `d` (uint32 in Go) and seed `x` (gmp.Int) -/
structure Challenge where
  d : Nat
  x : Nat
deriving DecidableEq

/-- DecodeChallenge from pow.go -/
def decodeChallenge (v : List Nat) : Except String Challenge :=
  match goSplitN3 v with
  | [p0, p1, p2] =>
      if p0 = verB then
        match goBase64Decode p1 with
        | none => .error "illegal base64 data"
        | some dBytes =>
            if dBytes.length > 4 then .error "difficulty too long"
            else
              match goBase64Decode p2 with
              | none => .error "illegal base64 data"
              | some xBytes =>
                  .ok ⟨bytesToNat (List.replicate (4 - dBytes.length) 0 ++ dBytes),
                       bytesToNat xBytes⟩
      else .error "incorrect version"
  | _ => .error "incorrect version"

/-- binary.BigEndian.PutUint32: the 4-byte big-endian encoding of `d` -/
def uint32be (d : Nat) : List Nat :=
  [d / 16777216 % 256, d / 65536 % 256, d / 256 % 256, d % 256]

/-- the String method of Challenge: "s.<b64 difficulty>.<b64 seed>" -/
def challengeString (c : Challenge) : List Nat :=
  verB ++ 46 :: b64encode (uint32be c.d) ++ 46 :: b64encode (natToBytes c.x)

/-- a proof string "s.<b64 value>", as produced at each return of Solve -/
def proofStr (y : Nat) : List Nat := verB ++ 46 :: b64encode (natToBytes y)

/-- the Solve method of pow.go, including the `seed ∈ {0,1}` fast paths
    and the unrolled `d ≤ 4` switch -/
def solve (c : Challenge) : List Nat :=
  if c.x = 0 then
    if c.d % 2 = 0 then proofStr 0 else proofStr 1
  else if c.x = 1 then
    if c.d % 2 = 0 then proofStr 1 else proofStr 0
  else if c.d ≤ 4 then
    match c.d with
    | 1 => proofStr (slowStep c.x)
    | 2 => proofStr (slowStep (slowStep c.x))
    | 3 => proofStr (slowStep (slowStep (slowStep c.x)))
    | 4 => proofStr (slowStep (slowStep (slowStep (slowStep c.x))))
    | _ => proofStr c.x
  else proofStr (slowIter c.d c.x)

/-- solveOriginal from optimizations_test.go: the plain `d`-fold loop -/
def solveOriginal (c : Challenge) : List Nat := proofStr (slowIter c.d c.x)

/-- decodeSolution from pow.go -/
def decodeSolution (s : List Nat) : Except String Nat :=
  match goSplitN2 s with
  | [p0, p1] =>
      if p0 = verB then
        match goBase64Decode p1 with
        | none => .error "illegal base64 data"
        | some yBytes => .ok (bytesToNat yBytes)
      else .error "incorrect version"
  | _ => .error "incorrect version"

/-- the Check method of pow.go.  The second comparison is against
    `mod - c.x` computed in `gmp.Int`, hence in `Int` here. -/
def check (c : Challenge) (s : List Nat) : Except String Bool :=
  match decodeSolution s with
  | .error e => .error ("decode solution: " ++ e)
  | .ok y =>
      if c.d = 0 then .ok (y == c.x)
      else
        let y2 := fastIter c.d y
        if y2 == c.x then .ok true
        else .ok ((M : Int) - (c.x : Int) == (y2 : Int))

/-- pointwise update of a heap of gmp cells -/
def upd (h : Nat → Nat) (a : Nat) (v : Nat) : Nat → Nat :=
  fun b => if b = a then v else h b

/-- a Solve/Check-style loop acting on a heap: each iteration overwrites
    cell `a1` with `step` of its own content, touching no other cell -/
def heapLoop (step : Nat → Nat) (a1 : Nat) : Nat → (Nat → Nat) → (Nat → Nat)
  | 0, h => h
  | d + 1, h => heapLoop step a1 d (upd h a1 (step (h a1)))

/-- Solve's general path on the heap: `ax` holds the challenge's seed
    field, `a1` is the fresh working cell obtained by
    `gmp.NewInt(0).Set(c.x)`, then the loop runs `d` times on `a1` -/
def solveHeap (h : Nat → Nat) (ax a1 : Nat) (d : Nat) : Nat → Nat :=
  heapLoop slowStep a1 d (upd h a1 (h ax))

/-- Check's path on the heap: the decoded solution lives in cell `ay`,
    the loop runs `d` times on `ay`, then `x := gmp.NewInt(0).Set(c.x)`
    into fresh cell `a2`, and (on the not-equal branch)
    `x.Sub(mod, c.x)` overwrites `a2` -/
def checkHeap (h : Nat → Nat) (ax ay a2 : Nat) (d : Nat) : Nat → Nat :=
  let h1 := heapLoop fastStep ay d h
  let h2 := upd h1 a2 (h1 ax)
  if h2 a2 = h2 ay then h2 else upd h2 a2 (M - h2 ax)


theorem xor_one_of_even {n : Nat} (h : n % 2 = 0) : n ^^^ 1 = n + 1 := by
  have hn : n = Nat.bit false (n / 2) := by
    rw [Nat.bit_val]; simp; omega
  have h1 : (1 : Nat) = Nat.bit true 0 := by rw [Nat.bit_val]; simp
  rw [hn, h1, Nat.xor_bit]
  simp [Nat.bit_val]

theorem xor_one_of_odd {n : Nat} (h : n % 2 = 1) : n ^^^ 1 = n - 1 := by
  have hn : n = Nat.bit true (n / 2) := by
    rw [Nat.bit_val]; simp; omega
  have h1 : (1 : Nat) = Nat.bit true 0 := by rw [Nat.bit_val]; simp
  rw [hn, h1, Nat.xor_bit]
  simp [Nat.bit_val]

theorem two_le_pow1279 : 4 ≤ 2 ^ 1279 := by
  calc (4 : Nat) = 2 ^ 2 := by norm_num
  _ ≤ 2 ^ 1279 := Nat.pow_le_pow_right (by norm_num) (by norm_num)

theorem M_pos : 0 < M := by
  have := two_le_pow1279; unfold M; omega

theorem one_lt_M : 1 < M := by
  have := two_le_pow1279; unfold M; omega

theorem M_odd : M % 2 = 1 := by
  have h2 : 2 ^ 1279 % 2 = 0 := by
    norm_num [Nat.pow_mod]
  have := two_le_pow1279; unfold M; omega

theorem xor_one_le {n : Nat} (h : n ≤ M) : n ^^^ 1 ≤ M := by
  rcases Nat.mod_two_eq_zero_or_one n with he | ho
  · rw [xor_one_of_even he]
    have : n ≠ M := by
      intro hEq; rw [hEq] at he; rw [M_odd] at he; exact absurd he (by norm_num)
    omega
  · rw [xor_one_of_odd ho]; omega

theorem M_sub_xor_one {u : Nat} (hu : u ≤ M) : (M - u) ^^^ 1 = M - (u ^^^ 1) := by
  have hM := M_odd
  rcases Nat.mod_two_eq_zero_or_one u with he | ho
  · have hne : u ≠ M := by
      intro hEq; rw [hEq, hM] at he; exact absurd he (by norm_num)
    have hlt : u < M := lt_of_le_of_ne hu hne
    have hsub : (M - u) % 2 = 1 := by omega
    rw [xor_one_of_even he, xor_one_of_odd hsub]
    omega
  · have hu1 : 1 ≤ u := by omega
    have hsub : (M - u) % 2 = 0 := by omega
    rw [xor_one_of_odd ho, xor_one_of_even hsub]
    omega

theorem bytesToNat_append_singleton (l : List Nat) (b : Nat) :
    bytesToNat (l ++ [b]) = bytesToNat l * 256 + b := by
  simp [bytesToNat, List.foldl_append]

theorem bytesToNat_natToBytesAux {fuel n : Nat} (h : n ≤ fuel) :
    bytesToNat (natToBytesAux fuel n) = n := by
  induction fuel generalizing n with
  | zero =>
    have : n = 0 := by omega
    simp [this, natToBytesAux, bytesToNat]
  | succ fuel ih =>
    by_cases h0 : n = 0
    · simp [h0, natToBytesAux, bytesToNat]
    · have hlt : n / 256 < n := Nat.div_lt_self (by omega) (by norm_num)
      rw [natToBytesAux, if_neg h0, bytesToNat_append_singleton, ih (by omega)]
      omega

theorem bytesToNat_natToBytes (n : Nat) : bytesToNat (natToBytes n) = n :=
  bytesToNat_natToBytesAux le_rfl

theorem natToBytesAux_lt {fuel n : Nat} : ∀ b ∈ natToBytesAux fuel n, b < 256 := by
  induction fuel generalizing n with
  | zero => simp [natToBytesAux]
  | succ fuel ih =>
    by_cases h0 : n = 0
    · simp [h0, natToBytesAux]
    · rw [natToBytesAux, if_neg h0]
      intro b hb
      rcases List.mem_append.mp hb with hmem | hmem
      · exact ih b hmem
      · rcases List.mem_singleton.mp hmem with rfl
        exact Nat.mod_lt _ (by norm_num)

theorem natToBytes_lt {n : Nat} : ∀ b ∈ natToBytes n, b < 256 :=
  natToBytesAux_lt

theorem bytesToNat_replicate_zero (k : Nat) (l : List Nat) :
    bytesToNat (List.replicate k 0 ++ l) = bytesToNat l := by
  induction k with
  | zero => simp
  | succ k ih =>
    rw [List.replicate_succ, List.cons_append]
    show List.foldl _ (0 * 256 + 0) _ = _
    simpa [bytesToNat] using ih


theorem b64Val_b64Char : ∀ i < 64, b64Val (b64Char i) = some i := by decide

theorem b64Char_facts : ∀ i < 64, b64Char i < 256 ∧ b64Char i ≠ 46 ∧
    b64Char i ≠ 13 ∧ b64Char i ≠ 10 ∧ b64Char i ≠ 61 := by decide

theorem b64encode_mem {bs : List Nat} (h : ∀ b ∈ bs, b < 256) :
    ∀ c ∈ b64encode bs, c = 61 ∨ ∃ i, i < 64 ∧ c = b64Char i := by
  induction bs using b64encode.induct with
  | case1 => simp [b64encode]
  | case2 a =>
    have ha : a < 256 := h a (by simp)
    intro c hc
    rw [b64encode] at hc
    simp only [List.mem_cons, List.not_mem_nil, or_false] at hc
    rcases hc with rfl | rfl | rfl | rfl
    · exact Or.inr ⟨a / 4, by omega, rfl⟩
    · exact Or.inr ⟨a % 4 * 16, by omega, rfl⟩
    · exact Or.inl rfl
    · exact Or.inl rfl
  | case3 a b =>
    have ha : a < 256 := h a (by simp)
    have hb : b < 256 := h b (by simp)
    intro c hc
    rw [b64encode] at hc
    simp only [List.mem_cons, List.not_mem_nil, or_false] at hc
    rcases hc with rfl | rfl | rfl | rfl
    · exact Or.inr ⟨a / 4, by omega, rfl⟩
    · exact Or.inr ⟨a % 4 * 16 + b / 16, by omega, rfl⟩
    · exact Or.inr ⟨b % 16 * 4, by omega, rfl⟩
    · exact Or.inl rfl
  | case4 a b c rest ih =>
    have ha : a < 256 := h a (by simp)
    have hb : b < 256 := h b (by simp)
    have hc : c < 256 := h c (by simp)
    intro e he
    rw [b64encode] at he
    simp only [List.mem_cons] at he
    rcases he with rfl | rfl | rfl | rfl | hmem
    · exact Or.inr ⟨a / 4, by omega, rfl⟩
    · exact Or.inr ⟨a % 4 * 16 + b / 16, by omega, rfl⟩
    · exact Or.inr ⟨b % 16 * 4 + c / 64, by omega, rfl⟩
    · exact Or.inr ⟨c % 64, by omega, rfl⟩
    · exact ih (fun x hx => h x (by simp [hx])) e hmem

theorem b64encode_no_special {bs : List Nat} (h : ∀ b ∈ bs, b < 256) :
    ∀ c ∈ b64encode bs, c ≠ 46 ∧ c ≠ 13 ∧ c ≠ 10 := by
  intro c hc
  rcases b64encode_mem h c hc with rfl | ⟨i, hi, rfl⟩
  · refine ⟨by norm_num, by norm_num, by norm_num⟩
  · have := b64Char_facts i hi
    exact ⟨this.2.1, this.2.2.1, this.2.2.2.1⟩

theorem b64decodeQuanta_encode {bs : List Nat} (h : ∀ b ∈ bs, b < 256) :
    b64decodeQuanta (b64encode bs) = some bs := by
  induction bs using b64encode.induct with
  | case1 => rfl
  | case2 a =>
    have ha : a < 256 := h a (by simp)
    rw [b64encode, b64decodeQuanta,
       b64Val_b64Char (a / 4) (by omega), b64Val_b64Char (a % 4 * 16) (by omega)]
    simp
    omega
  | case3 a b =>
    have ha : a < 256 := h a (by simp)
    have hb : b < 256 := h b (by simp)
    have h61 : b64Char (b % 16 * 4) ≠ 61 := (b64Char_facts _ (by omega)).2.2.2.2
    rw [b64encode, b64decodeQuanta,
       b64Val_b64Char (a / 4) (by omega), b64Val_b64Char (a % 4 * 16 + b / 16) (by omega)]
    simp [h61, b64Val_b64Char (b % 16 * 4) (by omega)]
    omega
  | case4 a b c rest ih =>
    have ha : a < 256 := h a (by simp)
    have hb : b < 256 := h b (by simp)
    have hc : c < 256 := h c (by simp)
    have h61c : b64Char (b % 16 * 4 + c / 64) ≠ 61 := (b64Char_facts _ (by omega)).2.2.2.2
    have h61d : b64Char (c % 64) ≠ 61 := (b64Char_facts _ (by omega)).2.2.2.2
    have ihr := ih (fun x hx => h x (by simp [hx]))
    rw [b64encode, b64decodeQuanta,
       b64Val_b64Char (a / 4) (by omega), b64Val_b64Char (a % 4 * 16 + b / 16) (by omega)]
    simp [h61c, h61d, b64Val_b64Char (b % 16 * 4 + c / 64) (by omega),
         b64Val_b64Char (c % 64) (by omega), ihr]
    omega

theorem goBase64Decode_encode {bs : List Nat} (h : ∀ b ∈ bs, b < 256) :
    goBase64Decode (b64encode bs) = some bs := by
  unfold goBase64Decode
  have hfil : (b64encode bs).filter (fun c => !(c == 13) && !(c == 10)) = b64encode bs := by
    rw [List.filter_eq_self]
    intro a ha
    have := b64encode_no_special h a ha
    simp only [Bool.and_eq_true, Bool.not_eq_true', beq_eq_false_iff_ne]
    exact ⟨this.2.1, this.2.2⟩
  rw [hfil]
  exact b64decodeQuanta_encode h


theorem splitFirst_append {p : List Nat} (r : List Nat) (hp : ∀ c ∈ p, c ≠ 46) :
    splitFirst (p ++ 46 :: r) = some (p, r) := by
  induction p with
  | nil => simp [splitFirst]
  | cons c t ih =>
    have hc : c ≠ 46 := hp c (by simp)
    rw [List.cons_append, splitFirst, if_neg hc, ih (fun x hx => hp x (by simp [hx]))]

theorem splitFirst_cons46 (r : List Nat) : splitFirst (46 :: r) = some ([], r) := by
  simp [splitFirst]

theorem splitFirst_ver (r : List Nat) : splitFirst (115 :: 46 :: r) = some ([115], r) := by
  rw [splitFirst, if_neg (by norm_num), splitFirst_cons46]

theorem goSplitN2_ver (r : List Nat) : goSplitN2 (115 :: 46 :: r) = [[115], r] := by
  rw [goSplitN2, splitFirst_ver]

theorem goSplitN3_ver {e1 : List Nat} (e2 : List Nat) (h1 : ∀ c ∈ e1, c ≠ 46) :
    goSplitN3 (115 :: 46 :: (e1 ++ 46 :: e2)) = [[115], e1, e2] := by
  rw [goSplitN3, splitFirst_ver]
  simp only [splitFirst_append _ h1]

theorem uint32be_lt (d : Nat) : ∀ b ∈ uint32be d, b < 256 := by
  intro b hb
  simp only [uint32be, List.mem_cons, List.not_mem_nil, or_false] at hb
  rcases hb with rfl | rfl | rfl | rfl <;> exact Nat.mod_lt _ (by norm_num)

theorem goSplitN2_proofStr (y : Nat) :
    goSplitN2 (proofStr y) = [verB, b64encode (natToBytes y)] := by
  show goSplitN2 (115 :: 46 :: b64encode (natToBytes y)) = _
  rw [goSplitN2_ver]
  rfl

theorem goSplitN3_challengeString (c : Challenge) :
    goSplitN3 (challengeString c) =
      [verB, b64encode (uint32be c.d), b64encode (natToBytes c.x)] := by
  have hne : ∀ e ∈ b64encode (uint32be c.d), e ≠ 46 :=
    fun e he => (b64encode_no_special (uint32be_lt c.d) e he).1
  show goSplitN3
      (115 :: 46 :: (b64encode (uint32be c.d) ++ 46 :: b64encode (natToBytes c.x))) = _
  rw [goSplitN3_ver _ hne]
  rfl

theorem decodeSolution_proofStr (y : Nat) : decodeSolution (proofStr y) = .ok y := by
  unfold decodeSolution
  rw [goSplitN2_proofStr]
  simp [verB, goBase64Decode_encode (fun b hb => natToBytes_lt b hb), bytesToNat_natToBytes]

theorem bytesToNat_uint32be {d : Nat} (hd : d < 4294967296) :
    bytesToNat (uint32be d) = d := by
  simp only [bytesToNat, uint32be, List.foldl]
  omega

theorem decodeChallenge_challengeString {d x : Nat} (hd : d < 4294967296) :
    decodeChallenge (challengeString ⟨d, x⟩) = .ok ⟨d, x⟩ := by
  unfold decodeChallenge
  rw [goSplitN3_challengeString]
  simp only [goBase64Decode_encode (uint32be_lt _),
             goBase64Decode_encode (fun b hb => natToBytes_lt b hb)]
  have hlen : (uint32be (Challenge.mk d x).d).length = 4 := rfl
  simp [hlen, bytesToNat_natToBytes, bytesToNat_uint32be hd]


theorem E_pos : 0 < E := Nat.pos_pow_of_pos 1277 (by norm_num)

theorem powModAux_eq (m : Nat) :
    ∀ fuel b e acc, e ≤ fuel → powModAux fuel b e m acc = acc * b ^ e % m := by
  intro fuel
  induction fuel with
  | zero =>
    intro b e acc he
    have h0 : e = 0 := by omega
    subst h0
    simp [powModAux]
  | succ fuel ih =>
    intro b e acc he
    by_cases h0 : e = 0
    · subst h0
      simp [powModAux]
    · rw [powModAux, if_neg h0, ih (b * b % m) (e / 2) _ (by omega)]
      show Nat.ModEq m _ _
      calc (if e % 2 = 1 then acc * b % m else acc) * (b * b % m) ^ (e / 2)
          ≡ (if e % 2 = 1 then acc * b % m else acc) * (b * b) ^ (e / 2) [MOD m] :=
            Nat.ModEq.mul_left _ (Nat.ModEq.pow _ (Nat.mod_modEq _ _))
        _ ≡ acc * b ^ (e % 2) * (b * b) ^ (e / 2) [MOD m] := by
            rcases Nat.mod_two_eq_zero_or_one e with hp | hp
            · rw [hp, if_neg (by norm_num), pow_zero, mul_one]
            · rw [hp, if_pos rfl, pow_one]
              exact Nat.ModEq.mul_right _ (Nat.mod_modEq _ _)
        _ = acc * b ^ e := by
            rw [show b * b = b ^ 2 from (sq b).symm, ← pow_mul, mul_assoc, ← pow_add]
            congr 2
            omega

theorem powMod_eq (b e m : Nat) : powMod b e m = b ^ e % m := by
  unfold powMod
  rw [powModAux_eq m e b e 1 le_rfl, one_mul]

theorem slowStep_eq (v : Nat) : slowStep v = (v ^ E % M) ^^^ 1 := by
  unfold slowStep
  rw [powMod_eq]

theorem fastStep_eq (y : Nat) : fastStep y = (y ^^^ 1) ^ 2 % M := by
  unfold fastStep
  rw [powMod_eq]

theorem slowStep_zero : slowStep 0 = 1 := by
  rw [slowStep_eq]
  have h : (0 : Nat) ^ E = 0 := Nat.zero_pow E_pos
  rw [h, Nat.zero_mod, Nat.zero_xor]

theorem slowStep_one : slowStep 1 = 0 := by
  rw [slowStep_eq]
  have h : (1 : Nat) ^ E = 1 := Nat.one_pow E
  rw [h, Nat.mod_eq_of_lt one_lt_M, Nat.xor_self]

theorem fastStep_zero : fastStep 0 = 1 := by
  rw [fastStep_eq]
  rw [Nat.zero_xor, one_pow, Nat.mod_eq_of_lt one_lt_M]

theorem fastStep_one : fastStep 1 = 0 := by
  rw [fastStep_eq]
  rw [Nat.xor_self]
  norm_num

theorem slowIter_zero_one (d : Nat) :
    slowIter d 0 = d % 2 ∧ slowIter d 1 = (d + 1) % 2 := by
  induction d with
  | zero => exact ⟨rfl, rfl⟩
  | succ d ih =>
    constructor
    · show slowIter d (slowStep 0) = (d + 1) % 2
      rw [slowStep_zero, ih.2]
    · show slowIter d (slowStep 1) = (d + 1 + 1) % 2
      rw [slowStep_one, ih.1]
      omega

theorem fastIter_zero_one (d : Nat) :
    fastIter d 0 = d % 2 ∧ fastIter d 1 = (d + 1) % 2 := by
  induction d with
  | zero => exact ⟨rfl, rfl⟩
  | succ d ih =>
    constructor
    · show fastIter d (fastStep 0) = (d + 1) % 2
      rw [fastStep_zero, ih.2]
    · show fastIter d (fastStep 1) = (d + 1 + 1) % 2
      rw [fastStep_one, ih.1]
      omega

theorem solve_eq_solveOriginal (c : Challenge) : solve c = solveOriginal c := by
  obtain ⟨d, x⟩ := c
  show solve ⟨d, x⟩ = proofStr (slowIter d x)
  by_cases hx0 : x = 0
  · subst hx0
    show (if d % 2 = 0 then proofStr 0 else proofStr 1) = proofStr (slowIter d 0)
    rw [(slowIter_zero_one d).1]
    rcases Nat.mod_two_eq_zero_or_one d with he | ho
    · rw [if_pos he, he]
    · rw [if_neg (by omega), ho]
  · by_cases hx1 : x = 1
    · subst hx1
      show (if (1 : Nat) = 0 then if d % 2 = 0 then proofStr 0 else proofStr 1
            else if d % 2 = 0 then proofStr 1 else proofStr 0) = proofStr (slowIter d 1)
      rw [if_neg (by norm_num), (slowIter_zero_one d).2]
      rcases Nat.mod_two_eq_zero_or_one d with he | ho
      · rw [if_pos he, show (d + 1) % 2 = 1 by omega]
      · rw [if_neg (by omega), show (d + 1) % 2 = 0 by omega]
    · unfold solve
      simp only [if_neg hx0, if_neg hx1]
      by_cases hd : d ≤ 4
      · rw [if_pos hd]
        interval_cases d <;> rfl
      · rw [if_neg hd]


/-- primality of the Mersenne number 2^1279 - 1, by the Lucas-Lehmer test -/
theorem mersenne1279_prime : (mersenne 1279).Prime :=
  lucas_lehmer_sufficiency _ (by norm_num) (by norm_num)


theorem M_eq_mersenne : M = mersenne 1279 := rfl

theorem M_prime : Nat.Prime M := by
  rw [M_eq_mersenne]
  exact mersenne1279_prime

theorem pow_root (a : Nat) :
    a ^ 2 ^ 1278 % M = a % M ∨ a ^ 2 ^ 1278 % M = M - a % M := by
  haveI hF : Fact (Nat.Prime M) := ⟨M_prime⟩
  haveI : NeZero M := ⟨by have := M_pos; omega⟩
  by_cases hb : (a : ZMod M) = 0
  · left
    have hdvd : M ∣ a := (ZMod.natCast_zmod_eq_zero_iff_dvd a M).mp hb
    have h1 : a % M = 0 := (Nat.mod_eq_zero_of_dvd hdvd)
    have h2 : a ^ 2 ^ 1278 % M = 0 := by
      have : M ∣ a ^ 2 ^ 1278 := dvd_pow hdvd (by positivity)
      exact Nat.mod_eq_zero_of_dvd this
    rw [h1, h2]
  · have hA : 1 ≤ 2 ^ 1278 := Nat.one_le_two_pow
    have hM1 : M - 1 = 2 ^ 1278 - 1 + (2 ^ 1278 - 1) := by
      have hp : (2 : Nat) ^ 1279 = 2 ^ 1278 * 2 := by
        rw [← pow_succ]
      unfold M
      omega
    have hhalf : (M - 1) / 2 = 2 ^ 1278 - 1 := by omega
    have h1 : (a : ZMod M) ^ (M - 1) = 1 := ZMod.pow_card_sub_one_eq_one hb
    have hsq : (a : ZMod M) ^ ((M - 1) / 2) * (a : ZMod M) ^ ((M - 1) / 2) = 1 := by
      rw [← pow_add]
      rw [show (M - 1) / 2 + (M - 1) / 2 = M - 1 by omega]
      exact h1
    have hpm := mul_self_eq_one_iff.mp hsq
    have key : (a : ZMod M) ^ 2 ^ 1278 = a ∨ (a : ZMod M) ^ 2 ^ 1278 = -(a : ZMod M) := by
      have hsplit : (2 : Nat) ^ 1278 = (M - 1) / 2 + 1 := by omega
      rw [hsplit, pow_succ]
      rcases hpm with h | h
      · left
        rw [h, one_mul]
      · right
        rw [h]
        ring
    have hlt : a ^ 2 ^ 1278 % M < M := Nat.mod_lt _ M_pos
    have hcast : ((a ^ 2 ^ 1278 % M : Nat) : ZMod M) = (a : ZMod M) ^ 2 ^ 1278 := by
      rw [ZMod.natCast_mod]
      push_cast
      rfl
    have hmod : a % M ≠ 0 := by
      intro h0
      apply hb
      rw [← ZMod.natCast_mod a M, h0]
      rfl
    have hmlt : a % M < M := Nat.mod_lt _ M_pos
    rcases key with h | h
    · left
      have : ((a ^ 2 ^ 1278 % M : Nat) : ZMod M) = ((a % M : Nat) : ZMod M) := by
        rw [hcast, h, ZMod.natCast_mod]
      have hv := congrArg ZMod.val this
      rwa [ZMod.val_natCast_of_lt hlt, ZMod.val_natCast_of_lt hmlt] at hv
    · right
      have hle : a % M ≤ M := le_of_lt hmlt
      have hsub : ((M - a % M : Nat) : ZMod M) = -(a : ZMod M) := by
        push_cast [hle]
        rw [ZMod.natCast_self, ZMod.natCast_mod]
        ring
      have : ((a ^ 2 ^ 1278 % M : Nat) : ZMod M) = ((M - a % M : Nat) : ZMod M) := by
        rw [hcast, h, hsub]
      have hv := congrArg ZMod.val this
      have hsublt : M - a % M < M := by omega
      rwa [ZMod.val_natCast_of_lt hlt, ZMod.val_natCast_of_lt hsublt] at hv


theorem fastStep_slowStep (w : Nat) : fastStep (slowStep w) = w ^ 2 ^ 1278 % M := by
  rw [fastStep_eq, slowStep_eq, Nat.xor_cancel_right, ← Nat.pow_mod, ← pow_mul]
  have hE : E * 2 = 2 ^ 1278 := by
    unfold E
    rw [← pow_succ]
  rw [hE]

theorem fastStep_M_sub {u : Nat} (hu : u ≤ M) : fastStep (M - u) = fastStep u := by
  rw [fastStep_eq, fastStep_eq, M_sub_xor_one hu]
  have ht : u ^^^ 1 ≤ M := xor_one_le hu
  zify [ht]
  have hexp : ((M : Int) - (u ^^^ 1 : Nat)) ^ 2 =
      ((u ^^^ 1 : Nat) : Int) ^ 2 + (M : Int) * ((M : Int) - 2 * ((u ^^^ 1 : Nat) : Int)) := by
    ring
  rw [hexp, Int.add_mul_emod_self_left]

theorem fastStep_M : fastStep M = fastStep 0 := by
  have h := fastStep_M_sub (u := 0) (Nat.zero_le M)
  simpa using h

theorem fastStep_mod {w : Nat} (hw : w ≤ M) : fastStep (w % M) = fastStep w := by
  rcases Nat.lt_or_ge w M with h | h
  · rw [Nat.mod_eq_of_lt h]
  · have hwM : w = M := le_antisymm hw h
    subst hwM
    rw [Nat.mod_self, fastStep_M]

theorem slowStep_le (v : Nat) : slowStep v ≤ M := by
  rw [slowStep_eq]
  exact xor_one_le (le_of_lt (Nat.mod_lt _ M_pos))

theorem slowIter_le (d : Nat) : ∀ x, x ≤ M → slowIter d x ≤ M := by
  induction d with
  | zero => intro x hx; exact hx
  | succ d ih =>
    intro x hx
    show slowIter d (slowStep x) ≤ M
    exact ih _ (slowStep_le x)

theorem slowIter_succ (d : Nat) : ∀ x, slowIter (d + 1) x = slowStep (slowIter d x) := by
  induction d with
  | zero => intro x; rfl
  | succ d ih =>
    intro x
    show slowIter (d + 1) (slowStep x) = slowStep (slowIter (d + 1) x)
    exact ih (slowStep x)

theorem fastIter_mod_of_pos {d : Nat} (hd : 1 ≤ d) {w : Nat} (hw : w ≤ M) :
    fastIter d (w % M) = fastIter d w := by
  obtain ⟨e, rfl⟩ : ∃ e, d = e + 1 := ⟨d - 1, by omega⟩
  show fastIter e (fastStep (w % M)) = fastIter e (fastStep w)
  rw [fastStep_mod hw]

theorem fastIter_M_sub {d : Nat} (hd : 1 ≤ d) {u : Nat} (hu : u ≤ M) :
    fastIter d (M - u) = fastIter d u := by
  obtain ⟨e, rfl⟩ : ∃ e, d = e + 1 := ⟨d - 1, by omega⟩
  show fastIter e (fastStep (M - u)) = fastIter e (fastStep u)
  rw [fastStep_M_sub hu]

theorem main_root (d : Nat) : ∀ x, x ≤ M →
    fastIter d (slowIter d x) = x ∨ fastIter d (slowIter d x) = M - x := by
  induction d with
  | zero => intro x _; left; rfl
  | succ d ih =>
    intro x hx
    have hwM : slowIter d x ≤ M := slowIter_le d x hx
    rw [slowIter_succ d x,
        show fastIter (d + 1) (slowStep (slowIter d x))
           = fastIter d (fastStep (slowStep (slowIter d x))) from rfl,
        fastStep_slowStep]
    rcases pow_root (slowIter d x) with h | h <;> rw [h]
    · rcases Nat.eq_zero_or_pos d with hd0 | hdpos
      · subst hd0
        show slowIter 0 x % M = x ∨ slowIter 0 x % M = M - x
        show x % M = x ∨ x % M = M - x
        rcases Nat.lt_or_ge x M with hlt | hge
        · left; exact Nat.mod_eq_of_lt hlt
        · have hxM : x = M := le_antisymm hx hge
          subst hxM
          right
          rw [Nat.mod_self, Nat.sub_self]
      · rw [fastIter_mod_of_pos hdpos hwM]
        exact ih x hx
    · rcases Nat.eq_zero_or_pos d with hd0 | hdpos
      · subst hd0
        show M - slowIter 0 x % M = x ∨ M - slowIter 0 x % M = M - x
        show M - x % M = x ∨ M - x % M = M - x
        rcases Nat.lt_or_ge x M with hlt | hge
        · right; rw [Nat.mod_eq_of_lt hlt]
        · have hxM : x = M := le_antisymm hx hge
          subst hxM
          left
          rw [Nat.mod_self, Nat.sub_zero]
      · rw [fastIter_M_sub hdpos (le_of_lt (Nat.mod_lt _ M_pos)),
            fastIter_mod_of_pos hdpos hwM]
        exact ih x hx


theorem check_proofStr (c : Challenge) (y : Nat) :
    check c (proofStr y) =
      (if c.d = 0 then Except.ok (y == c.x)
       else if fastIter c.d y == c.x then Except.ok true
       else Except.ok ((M : Int) - (c.x : Int) == (fastIter c.d y : Int))) := by
  unfold check
  rw [decodeSolution_proofStr]

theorem check_solve {c : Challenge} (hx : c.x ≤ M) : check c (solve c) = .ok true := by
  rw [solve_eq_solveOriginal]
  show check c (proofStr (slowIter c.d c.x)) = .ok true
  rw [check_proofStr]
  by_cases hd : c.d = 0
  · rw [if_pos hd, hd]
    show Except.ok ((c.x == c.x)) = Except.ok true
    rw [beq_self_eq_true]
  · rw [if_neg hd]
    rcases main_root c.d c.x hx with h | h
    · rw [h, beq_self_eq_true, if_pos rfl]
    · rcases eq_or_ne (fastIter c.d (slowIter c.d c.x)) c.x with he | hne
      · rw [he, beq_self_eq_true, if_pos rfl]
      · have hbeq : (fastIter c.d (slowIter c.d c.x) == c.x) = false := by
          rw [beq_eq_false_iff_ne]
          exact hne
        rw [hbeq, if_neg (by simp)]
        have hio : ((M : Int) - (c.x : Int) == (fastIter c.d (slowIter c.d c.x) : Int)) = true := by
          rw [beq_iff_eq, h]
          push_cast [hx]
          ring
        rw [hio]


theorem slowStep_pow1279 : slowStep (2 ^ 1279) = 0 := by
  rw [slowStep_eq]
  have hmod4 : ∀ A : Nat, 4 ≤ A → A % (A - 1) = 1 := by
    intro A hA
    set B := A - 1 with hB
    rw [show A = B + 1 from by omega, Nat.add_mod_left]
    exact Nat.mod_eq_of_lt (by omega)
  have hm : (2 : Nat) ^ 1279 % M = 1 := by
    show 2 ^ 1279 % (2 ^ 1279 - 1) = 1
    exact hmod4 _ two_le_pow1279
  have hbridge : ∀ a b n : Nat, a ^ b % n = (a % n) ^ b % n := fun a b n => Nat.pow_mod a b n
  have honep : ∀ n : Nat, (1 : Nat) ^ n = 1 := fun n => Nat.one_pow n
  have hp : ((2 : Nat) ^ 1279) ^ E % M = 1 := by
    rw [hbridge, hm, honep]
    exact Nat.mod_eq_of_lt one_lt_M
  rw [hp, Nat.xor_self]

theorem solve_one_pow1279 : solve ⟨1, 2 ^ 1279⟩ = [115, 46] := by
  have hx0 : (2 : Nat) ^ 1279 ≠ 0 := by positivity
  have hx1 : (2 : Nat) ^ 1279 ≠ 1 := by
    have := two_le_pow1279
    omega
  unfold solve
  simp only [if_neg hx0, if_neg hx1]
  rw [if_pos (by norm_num)]
  show proofStr (slowStep (2 ^ 1279)) = [115, 46]
  rw [slowStep_pow1279]
  rfl

/-- Claim C1, counterexample: for the decodable challenge with difficulty 1
    and seed `2^1279` (which exceeds the modulus `M = 2^1279 - 1`), `Check`
    rejects the very proof `Solve` produces, so Solve/Check agreement fails
    for this seed. -/
theorem c1_counterexample : check ⟨1, 2 ^ 1279⟩ (solve ⟨1, 2 ^ 1279⟩) = .ok false := by
  rw [solve_one_pow1279]
  rfl

/-- Claim C1 (amended): for every difficulty `d` and every seed `x` within
    the documented invariant `0 ≤ x < M`, checking a challenge's own
    solution succeeds: `Check(Challenge(d,x), Solve(Challenge(d,x)))`
    returns `true` with no error. -/
theorem c1_theorem (d x : Nat) (hx : x < M) :
    check ⟨d, x⟩ (solve ⟨d, x⟩) = .ok true :=
  check_solve (le_of_lt hx)

/-- Witness for C1 at `d = 5`, `x = 42`. -/
theorem c1_witness : 42 < M ∧ check ⟨5, 42⟩ (solve ⟨5, 42⟩) = .ok true :=
  ⟨by decide, c1_theorem 5 42 (by decide)⟩

/-- Claim C4: decoding an encoded challenge round-trips: for every
    difficulty `d` (a uint32) and every seed `x ≥ 0`,
    `DecodeChallenge(Challenge(d,x).String())` succeeds and returns a
    challenge with difficulty `d` and seed `x`. -/
theorem c4_theorem (d x : Nat) (hd : d < 4294967296) :
    decodeChallenge (challengeString ⟨d, x⟩) = .ok ⟨d, x⟩ :=
  decodeChallenge_challengeString hd

/-- Witness for C4 at `d = 70000`, `x = 12345`. -/
theorem c4_witness : 70000 < 4294967296 ∧
    decodeChallenge (challengeString ⟨70000, 12345⟩) = .ok ⟨70000, 12345⟩ :=
  ⟨by norm_num, c4_theorem 70000 12345 (by norm_num)⟩

/-- Claim C6: for every challenge whose seed is neither 0 nor 1 and whose
    difficulty is between 1 and 4, the unrolled small-difficulty branch of
    `Solve` produces exactly the same proof string as the plain `d`-fold
    loop (`solveOriginal`). -/
theorem c6_theorem (c : Challenge) (_h1 : 1 ≤ c.d) (_h4 : c.d ≤ 4)
    (_hx0 : c.x ≠ 0) (_hx1 : c.x ≠ 1) : solve c = solveOriginal c :=
  solve_eq_solveOriginal c

/-- Witness for C6 at `d = 2`, `x = 5`. -/
theorem c6_witness : 1 ≤ (⟨2, 5⟩ : Challenge).d ∧ (⟨2, 5⟩ : Challenge).d ≤ 4 ∧
    (⟨2, 5⟩ : Challenge).x ≠ 0 ∧ (⟨2, 5⟩ : Challenge).x ≠ 1 ∧
    solve ⟨2, 5⟩ = solveOriginal ⟨2, 5⟩ :=
  ⟨by norm_num, by norm_num, by norm_num, by norm_num,
   c6_theorem ⟨2, 5⟩ (by norm_num) (by norm_num) (by norm_num) (by norm_num)⟩

theorem check_decode_ok (c : Challenge) {s : List Nat} {y : Nat}
    (hdec : decodeSolution s = .ok y) :
    check c s =
      (if c.d = 0 then Except.ok (y == c.x)
       else if fastIter c.d y == c.x then Except.ok true
       else Except.ok ((M : Int) - (c.x : Int) == (fastIter c.d y : Int))) := by
  unfold check
  rw [hdec]

theorem check_decode_error (c : Challenge) {s : List Nat} {e : String}
    (hdec : decodeSolution s = .error e) :
    check c s = .error ("decode solution: " ++ e) := by
  unfold check
  rw [hdec]

/-- Claim C2: for every challenge and every proof string that decodes to a
    value `y`: when `d = 0`, `Check` returns true iff `y` equals the seed
    exactly; when `d ≥ 1`, `Check` returns true iff applying the fast step
    (xor 1 then square mod M) exactly `d` times to `y` yields a value equal
    to the seed or to `M - seed` (the latter compared in `Int`, as the code
    computes `mod - c.x` on arbitrary-precision integers). -/
theorem c2_theorem (c : Challenge) (s : List Nat) (y : Nat)
    (hdec : decodeSolution s = .ok y) :
    (c.d = 0 → (check c s = .ok true ↔ y = c.x)) ∧
    (1 ≤ c.d → (check c s = .ok true ↔
        (fastIter c.d y = c.x ∨ (fastIter c.d y : Int) = (M : Int) - (c.x : Int)))) := by
  rw [check_decode_ok c hdec]
  constructor
  · intro hd0
    rw [if_pos hd0]
    constructor
    · intro h
      exact eq_of_beq (Except.ok.inj h)
    · intro h
      rw [h, beq_self_eq_true]
  · intro hd1
    rw [if_neg (by omega)]
    by_cases hb : fastIter c.d y = c.x
    · rw [if_pos (by rw [hb]; exact beq_self_eq_true c.x)]
      simp [hb]
    · rw [if_neg (fun hc => hb (eq_of_beq hc))]
      constructor
      · intro h
        right
        exact (eq_of_beq (Except.ok.inj h)).symm
      · intro h
        rcases h with h | h
        · exact absurd h hb
        · rw [show ((M : Int) - (c.x : Int) == (fastIter c.d y : Int)) = true from
              beq_iff_eq.mpr h.symm]

/-- Witness for C2 at the challenge `⟨0, 42⟩` and the proof string
    "s.Kg==", which decodes to 42. -/
theorem c2_witness :
    decodeSolution [115, 46, 75, 103, 61, 61] = .ok 42 ∧
    (((⟨0, 42⟩ : Challenge).d = 0 →
        (check ⟨0, 42⟩ [115, 46, 75, 103, 61, 61] = .ok true ↔ 42 = (⟨0, 42⟩ : Challenge).x)) ∧
     (1 ≤ (⟨0, 42⟩ : Challenge).d →
        (check ⟨0, 42⟩ [115, 46, 75, 103, 61, 61] = .ok true ↔
          (fastIter (⟨0, 42⟩ : Challenge).d 42 = (⟨0, 42⟩ : Challenge).x ∨
           (fastIter (⟨0, 42⟩ : Challenge).d 42 : Int) =
             (M : Int) - ((⟨0, 42⟩ : Challenge).x : Int))))) :=
  ⟨rfl, c2_theorem ⟨0, 42⟩ [115, 46, 75, 103, 61, 61] 42 rfl⟩

/-- Claim C3: for seeds 0 and 1 the fast path of `Solve` yields, without
    running the loop, a proof decoding to the seed when `d` is even and to
    the other element of `{0,1}` when `d` is odd; this agrees with the
    plain `d`-fold loop (`solveOriginal`) for all `d`; and concretely for
    seed 1, `d = 5`, the proof decodes to 0 and `Check` accepts it. -/
theorem c3_theorem :
    (∀ d x : Nat, x = 0 ∨ x = 1 →
      decodeSolution (solve ⟨d, x⟩) = .ok (if d % 2 = 0 then x else 1 - x) ∧
      solve ⟨d, x⟩ = solveOriginal ⟨d, x⟩) ∧
    decodeSolution (solve ⟨5, 1⟩) = .ok 0 ∧
    check ⟨5, 1⟩ (solve ⟨5, 1⟩) = .ok true := by
  have hmain : ∀ d x : Nat, x = 0 ∨ x = 1 →
      decodeSolution (solve ⟨d, x⟩) = .ok (if d % 2 = 0 then x else 1 - x) := by
    intro d x hx
    rcases hx with rfl | rfl
    · rw [show solve ⟨d, (0 : Nat)⟩ = (if d % 2 = 0 then proofStr 0 else proofStr 1) from rfl]
      rcases Nat.mod_two_eq_zero_or_one d with he | ho
      · rw [if_pos he, if_pos he, decodeSolution_proofStr]
      · rw [if_neg (by omega), if_neg (by omega), decodeSolution_proofStr]
    · rw [show solve ⟨d, (1 : Nat)⟩ = (if d % 2 = 0 then proofStr 1 else proofStr 0) from rfl]
      rcases Nat.mod_two_eq_zero_or_one d with he | ho
      · rw [if_pos he, if_pos he, decodeSolution_proofStr]
      · rw [if_neg (by omega), if_neg (by omega), decodeSolution_proofStr]
  refine ⟨fun d x hx => ⟨hmain d x hx, solve_eq_solveOriginal _⟩, ?_, ?_⟩
  · have h := hmain 5 1 (Or.inr rfl)
    simpa using h
  · rfl

/-- Witness for C3 at `d = 5`, `x = 1`. -/
theorem c3_witness :
    ((1 : Nat) = 0 ∨ (1 : Nat) = 1) ∧
    decodeSolution (solve ⟨5, 1⟩) = .ok (if 5 % 2 = 0 then 1 else 1 - 1) ∧
    solve ⟨5, 1⟩ = solveOriginal ⟨5, 1⟩ :=
  ⟨Or.inr rfl, (c3_theorem.1 5 1 (Or.inr rfl)).1, (c3_theorem.1 5 1 (Or.inr rfl)).2⟩

/-- Claim C5, counterexample: the challenge with difficulty 0 and seed 42
    has the valid proof "s.Kg==" produced by `Solve`; flipping its byte at
    index 3 from 'g' (103) to 'h' (104) yields "s.Kh==", a different
    string that Go's non-strict base64 decoder still decodes to 42 (the
    flipped bits are ignored trailing padding bits), so `Check` returns
    `true` on the tampered string. -/
theorem c5_counterexample :
    solve ⟨0, 42⟩ = [115, 46, 75, 103, 61, 61] ∧
    (solve ⟨0, 42⟩).set 3 104 = [115, 46, 75, 104, 61, 61] ∧
    (solve ⟨0, 42⟩).get? 3 = some 103 ∧ (104 : Nat) ≠ 103 ∧
    check ⟨0, 42⟩ ((solve ⟨0, 42⟩).set 3 104) = .ok true :=
  ⟨rfl, rfl, rfl, by norm_num, rfl⟩

/-- Claim C5 (amended): flipping any single byte of a valid proof string
    makes `Check` fail with a decode error or return `false`, except that
    the altered string may still decode to the same integer as the
    original (Go's non-strict base64 ignores trailing padding bits), in
    which case `Check` returns `true` exactly as for the original; for
    difficulty-0 challenges these three outcomes are exhaustive. -/
theorem c5_theorem (x i b : Nat) (_hi : i < (solve ⟨0, x⟩).length)
    (_hb : b ≠ (solve ⟨0, x⟩).getD i 0) :
    (∃ e, check ⟨0, x⟩ ((solve ⟨0, x⟩).set i b) = .error e) ∨
    check ⟨0, x⟩ ((solve ⟨0, x⟩).set i b) = .ok false ∨
    (decodeSolution ((solve ⟨0, x⟩).set i b) = .ok x ∧
     decodeSolution (solve ⟨0, x⟩) = .ok x ∧
     check ⟨0, x⟩ ((solve ⟨0, x⟩).set i b) = .ok true) := by
  have hsv : decodeSolution (solve ⟨0, x⟩) = .ok x := by
    rw [solve_eq_solveOriginal]
    show decodeSolution (proofStr (slowIter 0 x)) = .ok x
    rw [show slowIter 0 x = x from rfl, decodeSolution_proofStr]
  cases hdec : decodeSolution ((solve ⟨0, x⟩).set i b) with
  | error e =>
    left
    exact ⟨"decode solution: " ++ e, check_decode_error _ hdec⟩
  | ok y =>
    by_cases hy : y = x
    · right; right
      refine ⟨by rw [hy], hsv, ?_⟩
      rw [check_decode_ok _ hdec, if_pos (show (⟨0, x⟩ : Challenge).d = 0 from rfl),
          show (y == (⟨0, x⟩ : Challenge).x) = true from beq_iff_eq.mpr hy]
    · right; left
      rw [check_decode_ok _ hdec, if_pos (show (⟨0, x⟩ : Challenge).d = 0 from rfl),
          show (y == (⟨0, x⟩ : Challenge).x) = false from beq_eq_false_iff_ne.mpr hy]

/-- Witness for C5 (amended) at `x = 42`, flip position 3 to byte 104. -/
theorem c5_witness :
    3 < (solve ⟨0, 42⟩).length ∧ (104 : Nat) ≠ (solve ⟨0, 42⟩).getD 3 0 ∧
    ((∃ e, check ⟨0, 42⟩ ((solve ⟨0, 42⟩).set 3 104) = .error e) ∨
     check ⟨0, 42⟩ ((solve ⟨0, 42⟩).set 3 104) = .ok false ∨
     (decodeSolution ((solve ⟨0, 42⟩).set 3 104) = .ok 42 ∧
      decodeSolution (solve ⟨0, 42⟩) = .ok 42 ∧
      check ⟨0, 42⟩ ((solve ⟨0, 42⟩).set 3 104) = .ok true)) :=
  ⟨by decide, by decide, c5_theorem 42 3 104 (by decide) (by decide)⟩


/-- Claim C7: decoding a challenge whose dot-split (via `strings.SplitN`
    with limit 3) does not have exactly 3 fields, or whose version field
    is not "s", fails with the format error "incorrect version"; in
    particular "x.AAAAAA==.AA==" is rejected; and the mirror field-count
    (2) and version checks apply to proof decoding. -/
theorem c7_theorem :
    (∀ v : List Nat, (goSplitN3 v).length ≠ 3 ∨ (goSplitN3 v).head? ≠ some verB →
        decodeChallenge v = .error "incorrect version") ∧
    decodeChallenge [120, 46, 65, 65, 65, 65, 65, 65, 61, 61, 46, 65, 65, 61, 61]
      = .error "incorrect version" ∧
    (∀ s : List Nat, (goSplitN2 s).length ≠ 2 ∨ (goSplitN2 s).head? ≠ some verB →
        decodeSolution s = .error "incorrect version") := by
  refine ⟨?_, rfl, ?_⟩
  · intro v hv
    unfold decodeChallenge
    split
    · rename_i p0 p1 p2 heq
      rw [heq] at hv
      simp only [List.length_cons, List.length_nil, List.head?_cons, ne_eq,
                 Option.some.injEq] at hv
      rw [if_neg (by tauto)]
    · rfl
  · intro s hs
    unfold decodeSolution
    split
    · rename_i p0 p1 heq
      rw [heq] at hs
      simp only [List.length_cons, List.length_nil, List.head?_cons, ne_eq,
                 Option.some.injEq] at hs
      rw [if_neg (by tauto)]
    · rfl

/-- Witness for C7's universally quantified parts, at the malformed inputs
    "ss" (one field) and "x.AA==" (wrong version). -/
theorem c7_witness :
    ((goSplitN3 [115, 115]).length ≠ 3 ∨ (goSplitN3 [115, 115]).head? ≠ some verB) ∧
    decodeChallenge [115, 115] = .error "incorrect version" ∧
    ((goSplitN2 [120, 46, 65, 65, 61, 61]).length ≠ 2 ∨
      (goSplitN2 [120, 46, 65, 65, 61, 61]).head? ≠ some verB) ∧
    decodeSolution [120, 46, 65, 65, 61, 61] = .error "incorrect version" :=
  ⟨by decide, c7_theorem.1 [115, 115] (by decide),
   by decide, c7_theorem.2.2 [120, 46, 65, 65, 61, 61] (by decide)⟩

/-- Claim C8: when the split succeeds with version "s" and the difficulty
    segment base64-decodes to `db`: more than 4 difficulty bytes give the
    format error "difficulty too long"; at most 4 bytes are left-padded
    with zeros to 4 bytes and read as a big-endian unsigned 32-bit
    integer, so the resulting difficulty is the big-endian value of `db`. -/
theorem decodeChallenge_parts {v f1 f2 : List Nat}
    (hsp : goSplitN3 v = [verB, f1, f2]) :
    decodeChallenge v =
      (match goBase64Decode f1 with
       | none => .error "illegal base64 data"
       | some dBytes =>
          if dBytes.length > 4 then .error "difficulty too long"
          else
            match goBase64Decode f2 with
            | none => .error "illegal base64 data"
            | some xBytes =>
                .ok ⟨bytesToNat (List.replicate (4 - dBytes.length) 0 ++ dBytes),
                     bytesToNat xBytes⟩) := by
  unfold decodeChallenge
  rw [hsp]
  exact if_pos rfl

theorem c8_theorem (v f1 f2 db : List Nat)
    (hsp : goSplitN3 v = [verB, f1, f2]) (hdb : goBase64Decode f1 = some db) :
    (4 < db.length → decodeChallenge v = .error "difficulty too long") ∧
    (db.length ≤ 4 → ∀ xb, goBase64Decode f2 = some xb →
        decodeChallenge v = .ok ⟨bytesToNat db, bytesToNat xb⟩) := by
  constructor
  · intro hlen
    rw [decodeChallenge_parts hsp, hdb]
    exact if_pos hlen
  · intro hlen xb hxb
    have hng : ¬(db.length > 4) := by omega
    rw [decodeChallenge_parts hsp, hdb]
    show (if db.length > 4 then (Except.error "difficulty too long" : Except String Challenge)
          else
            match goBase64Decode f2 with
            | none => Except.error "illegal base64 data"
            | some xBytes =>
                Except.ok (Challenge.mk (bytesToNat (List.replicate (4 - db.length) 0 ++ db))
                           (bytesToNat xBytes)))
        = Except.ok (Challenge.mk (bytesToNat db) (bytesToNat xb))
    rw [if_neg hng, hxb]
    show Except.ok (Challenge.mk (bytesToNat (List.replicate (4 - db.length) 0 ++ db))
           (bytesToNat xb))
        = Except.ok (Challenge.mk (bytesToNat db) (bytesToNat xb))
    rw [bytesToNat_replicate_zero]

/-- Witness for C8: the challenge strings "s.AAAAAAAA.AA==" (six
    difficulty bytes, rejected) and "s.AAFfkA==.AA==" (four base64 groups
    decoding to difficulty bytes 0x00 0x01 0x5f 0x90 and seed byte 0x00). -/
theorem c8_witness :
    (goSplitN3 ([115, 46] ++ [65, 65, 65, 65, 65, 65, 65, 65] ++ [46, 65, 65, 61, 61])
       = [verB, [65, 65, 65, 65, 65, 65, 65, 65], [65, 65, 61, 61]]) ∧
    goBase64Decode [65, 65, 65, 65, 65, 65, 65, 65] = some [0, 0, 0, 0, 0, 0] ∧
    (4 < ([0, 0, 0, 0, 0, 0] : List Nat).length) ∧
    decodeChallenge ([115, 46] ++ [65, 65, 65, 65, 65, 65, 65, 65] ++ [46, 65, 65, 61, 61])
      = .error "difficulty too long" ∧
    goBase64Decode [65, 65, 70, 102, 107, 65, 61, 61] = some [0, 1, 95, 144] ∧
    decodeChallenge ([115, 46] ++ [65, 65, 70, 102, 107, 65, 61, 61] ++ [46, 65, 65, 61, 61])
      = .ok ⟨bytesToNat [0, 1, 95, 144], bytesToNat [0]⟩ :=
  ⟨by decide, by decide, by decide,
   (c8_theorem ([115, 46] ++ [65, 65, 65, 65, 65, 65, 65, 65] ++ [46, 65, 65, 61, 61])
      [65, 65, 65, 65, 65, 65, 65, 65] [65, 65, 61, 61] [0, 0, 0, 0, 0, 0]
      (by decide) (by decide)).1 (by decide),
   by decide,
   (c8_theorem ([115, 46] ++ [65, 65, 70, 102, 107, 65, 61, 61] ++ [46, 65, 65, 61, 61])
      [65, 65, 70, 102, 107, 65, 61, 61] [65, 65, 61, 61] [0, 1, 95, 144]
      (by decide) (by decide)).2 (by decide) [0] (by decide)⟩

/-- Claim C9: `Check` returns an error exactly when the proof string fails
    to decode (wrong field count, wrong version, or invalid base64), and
    the decode error is propagated; for a proof that decodes to `y` it
    returns a boolean, which is `false` exactly when `y` fails the
    mathematical test for the challenge. -/
theorem c9_theorem (c : Challenge) (s : List Nat) :
    ((∃ e, check c s = .error e) ↔ (∃ e, decodeSolution s = .error e)) ∧
    (∀ e, decodeSolution s = .error e → check c s = .error ("decode solution: " ++ e)) ∧
    (∀ y, decodeSolution s = .ok y → (check c s = .ok false ↔
        (if c.d = 0 then y ≠ c.x
         else fastIter c.d y ≠ c.x ∧
           (fastIter c.d y : Int) ≠ (M : Int) - (c.x : Int)))) := by
  refine ⟨?_, ?_, ?_⟩
  · constructor
    · rintro ⟨e, he⟩
      cases hdec : decodeSolution s with
      | error e2 => exact ⟨e2, rfl⟩
      | ok y =>
        rw [check_decode_ok c hdec] at he
        by_cases hd : c.d = 0
        · rw [if_pos hd] at he
          exact absurd he (by simp)
        · rw [if_neg hd] at he
          by_cases hb : fastIter c.d y == c.x
          · rw [if_pos hb] at he
            exact absurd he (by simp)
          · rw [if_neg hb] at he
            exact absurd he (by simp)
    · rintro ⟨e, he⟩
      exact ⟨"decode solution: " ++ e, check_decode_error c he⟩
  · intro e he
    exact check_decode_error c he
  · intro y hdec
    rw [check_decode_ok c hdec]
    by_cases hd : c.d = 0
    · rw [if_pos hd, if_pos hd]
      constructor
      · intro h
        have hb := Except.ok.inj h
        simpa using hb
      · intro h
        rw [show (y == c.x) = false from beq_eq_false_iff_ne.mpr h]
    · rw [if_neg hd, if_neg hd]
      by_cases hb : fastIter c.d y = c.x
      · rw [if_pos (by rw [hb]; exact beq_self_eq_true c.x)]
        constructor
        · intro h
          exact absurd (Except.ok.inj h) (by simp)
        · intro h
          exact absurd hb h.1
      · rw [if_neg (fun hc => hb (eq_of_beq hc))]
        constructor
        · intro h
          have hbool := Except.ok.inj h
          refine ⟨hb, fun hInt => ?_⟩
          rw [show ((M : Int) - (c.x : Int) == (fastIter c.d y : Int)) = true from
              beq_iff_eq.mpr hInt.symm] at hbool
          exact absurd hbool (by simp)
        · intro h
          rw [show ((M : Int) - (c.x : Int) == (fastIter c.d y : Int)) = false from
              beq_eq_false_iff_ne.mpr (fun hc => h.2 hc.symm)]

/-- Witness for C9: at the difficulty-0 challenge with seed 42 and the
    proof "s." (decoding to 0), Check returns false with no error. -/
theorem c9_witness : check ⟨0, 42⟩ [115, 46] = .ok false := by
  have h := (c9_theorem ⟨0, 42⟩ [115, 46]).2.2 0 rfl
  apply h.mpr
  simp

theorem heapLoop_frame (step : Nat → Nat) (a1 : Nat) (d : Nat) :
    ∀ (h : Nat → Nat) (b : Nat), b ≠ a1 → heapLoop step a1 d h b = h b := by
  induction d with
  | zero => intro h b _; rfl
  | succ d ih =>
    intro h b hb
    show heapLoop step a1 d (upd h a1 (step (h a1))) b = h b
    rw [ih _ b hb]
    show (if b = a1 then _ else h b) = h b
    rw [if_neg hb]

theorem heapLoop_slow (a1 : Nat) (d : Nat) :
    ∀ h : Nat → Nat, heapLoop slowStep a1 d h a1 = slowIter d (h a1) := by
  induction d with
  | zero => intro h; rfl
  | succ d ih =>
    intro h
    show heapLoop slowStep a1 d (upd h a1 (slowStep (h a1))) a1 = slowIter d (slowStep (h a1))
    rw [ih]
    congr 1
    show (if a1 = a1 then slowStep (h a1) else h a1) = slowStep (h a1)
    rw [if_pos rfl]

/-- Claim C10: Solve and Check never write the challenge's own seed cell:
    in the heap model, Solve copies the seed into a fresh working cell
    `a1` and loops there, Check loops on the decoded-solution cell `ay`
    and subtracts into a fresh cell `a2`, and in both cases the seed cell
    `ax` holds its original value afterwards (Solve's working cell ends at
    exactly the pure `slowIter` value, tying the heap model to the pure
    one; the String method performs no writes at all). -/
theorem c10_theorem (h : Nat → Nat) (ax a1 ay a2 : Nat) (d : Nat)
    (h1 : a1 ≠ ax) (h2 : ay ≠ ax) (h3 : a2 ≠ ax) :
    (solveHeap h ax a1 d ax = h ax ∧ solveHeap h ax a1 d a1 = slowIter d (h ax)) ∧
    checkHeap h ax ay a2 d ax = h ax := by
  refine ⟨⟨?_, ?_⟩, ?_⟩
  · unfold solveHeap
    rw [heapLoop_frame slowStep a1 d _ ax (fun hc => h1 hc.symm)]
    show (if ax = a1 then _ else h ax) = h ax
    rw [if_neg (fun hc => h1 hc.symm)]
  · unfold solveHeap
    rw [heapLoop_slow]
    congr 1
    show (if a1 = a1 then h ax else h a1) = h ax
    rw [if_pos rfl]
  · unfold checkHeap
    have hfr : heapLoop fastStep ay d h ax = h ax :=
      heapLoop_frame fastStep ay d h ax (fun hc => h2 hc.symm)
    have hupd : upd (heapLoop fastStep ay d h) a2 (heapLoop fastStep ay d h ax) ax = h ax := by
      show (if ax = a2 then _ else heapLoop fastStep ay d h ax) = h ax
      rw [if_neg (fun hc => h3 hc.symm), hfr]
    split
    · exact hupd
    · show (if ax = a2 then _ else _) = h ax
      rw [if_neg (fun hc => h3 hc.symm)]
      exact hupd

/-- Witness for C10 at a concrete heap and distinct cells. -/
theorem c10_witness :
    ((1 : Nat) ≠ 0 ∧ (2 : Nat) ≠ 0 ∧ (3 : Nat) ≠ 0) ∧
    ((solveHeap (fun a => a + 7) 0 1 5 0 = (fun a : Nat => a + 7) 0 ∧
      solveHeap (fun a => a + 7) 0 1 5 1 = slowIter 5 ((fun a : Nat => a + 7) 0)) ∧
     checkHeap (fun a => a + 7) 0 2 3 5 0 = (fun a : Nat => a + 7) 0) :=
  ⟨⟨by norm_num, by norm_num, by norm_num⟩,
   c10_theorem (fun a => a + 7) 0 1 2 3 5 (by norm_num) (by norm_num) (by norm_num)⟩

end Pow
